import Mathlib

/-!
Shallow embedding of the UAV swarm controller and simulation
(files `control.h` and `simulation.cpp` of the repository).

C++ `double` arithmetic is modelled by exact real arithmetic (`ℝ`),
`std::sqrt` by `Real.sqrt`.  Member functions that mutate their object are
modelled as functions returning the updated record.  A rational-valued
one-dimensional refinement of the per-agent simulation step is provided to
evaluate long concrete runs exactly.
-/

set_option maxHeartbeats 1000000

noncomputable section

/-- `std::clamp(v, lo, hi)`: `v < lo ? lo : hi < v ? hi : v`. -/
def cppClamp (v lo hi : ℝ) : ℝ :=
  if v < lo then lo else if hi < v then hi else v

/-- 3-component vector, from `struct Vec3` (components are C++ `double`s). -/
structure Vec3 where
  x : ℝ
  y : ℝ
  z : ℝ

namespace Vec3

/-- `operator+`. -/
def add (a b : Vec3) : Vec3 := ⟨a.x + b.x, a.y + b.y, a.z + b.z⟩

/-- `operator-`. -/
def sub (a b : Vec3) : Vec3 := ⟨a.x - b.x, a.y - b.y, a.z - b.z⟩

/-- `operator*(double s)`. -/
def smul (a : Vec3) (s : ℝ) : Vec3 := ⟨a.x * s, a.y * s, a.z * s⟩

/-- `operator/(double s)`. -/
def divs (a : Vec3) (s : ℝ) : Vec3 := ⟨a.x / s, a.y / s, a.z / s⟩

/-- `dot`. -/
def dot (a b : Vec3) : ℝ := a.x * b.x + a.y * b.y + a.z * b.z

/-- `mag()`: `std::sqrt(x*x + y*y + z*z)`. -/
def mag (a : Vec3) : ℝ := Real.sqrt (a.x * a.x + a.y * a.y + a.z * a.z)

/-- `normalized()`: returns the zero vector when the magnitude is below `1e-8`. -/
def normalized (a : Vec3) : Vec3 :=
  if a.mag < 1e-8 then ⟨0, 0, 0⟩ else a.divs a.mag

end Vec3

/-- Free function `distance(a, b) = (a - b).mag()`. -/
def distance (a b : Vec3) : ℝ := (a.sub b).mag

/-- `class PIDController`: gains, accumulated integral, previous error and
the two clamp bounds. -/
structure PIDController where
  kp : ℝ
  ki : ℝ
  kd : ℝ
  integral : ℝ
  prev_error : ℝ
  integral_limit : ℝ
  output_limit : ℝ

/-- The `PIDController` constructor: gains and limits as given, accumulated
state zeroed. -/
def pidInit (kp ki kd il ol : ℝ) : PIDController :=
  ⟨kp, ki, kd, 0, 0, il, ol⟩

namespace PIDController

/-- `setGains(p, i, d)`. -/
def setGains (c : PIDController) (p i d : ℝ) : PIDController :=
  { c with kp := p, ki := i, kd := d }

/-- `calculate(error, dt)`: returns the output together with the updated
controller (the C++ method mutates `integral` and `prev_error` in place). -/
def calculate (c : PIDController) (error dt : ℝ) : ℝ × PIDController :=
  if dt ≤ 0 then (0, c)
  else
    let integral1 := cppClamp (c.integral + error * dt) (-c.integral_limit) c.integral_limit
    let p_term := c.kp * error
    let i_term := c.ki * integral1
    let derivative := (error - c.prev_error) / dt
    let d_term := c.kd * derivative
    let out := cppClamp (p_term + i_term + d_term) (-c.output_limit) c.output_limit
    (out, { c with integral := integral1, prev_error := error })

/-- `reset()`: zeroes `integral` and `prev_error`, keeps gains and limits. -/
def reset (c : PIDController) : PIDController :=
  { c with integral := 0, prev_error := 0 }

end PIDController

/-- `enum class Phase`. -/
inductive Phase where
  | GroundWait
  | ClimbToCenter
  | OnSphere
deriving DecidableEq, Repr

/-- Numeric index of a phase in the intended one-directional order. -/
def phaseIdx : Phase → ℕ
  | Phase.GroundWait => 0
  | Phase.ClimbToCenter => 1
  | Phase.OnSphere => 2

/-- `struct ControlConfig`. -/
structure ControlConfig where
  center : Vec3
  sphereRadius : ℝ
  groundWait : ℝ
  maxForce : ℝ
  minSpeed : ℝ
  maxSpeed : ℝ

/-- The default member initializers of `ControlConfig`. -/
def defaultConfig : ControlConfig :=
  { center := ⟨0, 0, 50⟩
    sphereRadius := 10
    groundWait := 5
    maxForce := 20
    minSpeed := 2
    maxSpeed := 10 }

/-- `struct ControlState` with its default member initializers. -/
structure ControlState where
  phase : Phase
  timeInPhase : ℝ
  visitedCenter : Bool
  tangentialDir : Vec3

/-- Default-constructed `ControlState`. -/
def initialControlState : ControlState :=
  { phase := Phase.GroundWait
    timeInPhase := 0
    visitedCenter := false
    tangentialDir := ⟨1, 0, 0⟩ }

/-- `struct ControlPIDs`. -/
structure ControlPIDs where
  radialPID : PIDController
  speedPID : PIDController

/-- `clampMagnitude(v, maxMag)`. -/
def clampMagnitude (v : Vec3) (maxMag : ℝ) : Vec3 :=
  if v.mag ≤ maxMag ∨ v.mag < 1e-8 then v else v.smul (maxMag / v.mag)

/-- Result of one `computeControlForce` call: the returned force and the
mutated `ControlState` and `ControlPIDs`. -/
structure CCFOut where
  force : Vec3
  state : ControlState
  pids : ControlPIDs

/-- `computeControlForce(pos, vel, state, pids, cfg, dt)`, translated
control-flow point per control-flow point from `control.h`. -/
def computeControlForce (pos vel : Vec3) (state0 : ControlState)
    (pids0 : ControlPIDs) (cfg : ControlConfig) (dt : ℝ) : CCFOut :=
  let s1 : ControlState := { state0 with timeInPhase := state0.timeInPhase + dt }
  -- GroundWait block: either sit on the ground returning zero force, or
  -- transition to ClimbToCenter and fall through.
  if s1.phase = Phase.GroundWait ∧ s1.timeInPhase < cfg.groundWait then
    ⟨⟨0, 0, 0⟩, s1, pids0⟩
  else
    let s2 : ControlState :=
      if s1.phase = Phase.GroundWait then
        { s1 with phase := Phase.ClimbToCenter, timeInPhase := 0 }
      else s1
    -- ClimbToCenter arrival check ("close enough" tolerance 2.0).
    let arrived : Prop := s2.phase = Phase.ClimbToCenter ∧ distance pos cfg.center < 2
    let s3 : ControlState :=
      if arrived then
        { s2 with phase := Phase.OnSphere, timeInPhase := 0, visitedCenter := true }
      else s2
    let pids1 : ControlPIDs :=
      if arrived then ⟨pids0.radialPID.reset, pids0.speedPID.reset⟩ else pids0
    -- Shared geometry.
    let toCenter := cfg.center.sub pos
    let r := toCenter.mag
    let radialDir := toCenter.normalized
    if s3.phase = Phase.ClimbToCenter then
      -- "go to center" behaviour.
      let radialError := r
      let rc := pids1.radialPID.calculate radialError dt
      let force0 := radialDir.smul rc.1
      let speed := vel.mag
      let force1 :=
        if speed > 2 then force0.sub (vel.normalized.smul (0.5 * (speed - 2))) else force0
      ⟨clampMagnitude force1 cfg.maxForce, s3, { pids1 with radialPID := rc.2 }⟩
    else
      -- Phase::OnSphere
      let radialError := r - cfg.sphereRadius
      let rc := pids1.radialPID.calculate radialError dt
      let radialForce := radialDir.smul (-rc.1)
      let worldUp : Vec3 := ⟨0, 0, 1⟩
      let tangent0 : Vec3 :=
        ⟨radialDir.y * worldUp.z - radialDir.z * worldUp.y,
         radialDir.z * worldUp.x - radialDir.x * worldUp.z,
         radialDir.x * worldUp.y - radialDir.y * worldUp.x⟩
      let tangent1 := if tangent0.mag < 1e-3 then (⟨1, 0, 0⟩ : Vec3) else tangent0
      let tangent := tangent1.normalized
      let s4 : ControlState := { s3 with tangentialDir := tangent }
      let speed := vel.mag
      let targetSpeed := 0.5 * (cfg.minSpeed + cfg.maxSpeed)
      let speedError := targetSpeed - speed
      let sc := pids1.speedPID.calculate speedError dt
      let tangentialForce := tangent.smul sc.1
      let totalForce := radialForce.add tangentialForce
      ⟨clampMagnitude totalForce cfg.maxForce, s4, ⟨rc.2, sc.2⟩⟩

/-! ## Per-agent simulation (`simulation.cpp`) -/

/-- `constexpr double g = 10.0` (m/s²). -/
def g : ℝ := 10

/-- `constexpr double mass = 1.0`. -/
def mass : ℝ := 1

/-- The mutable state owned by one `UAV` object (kinematics, control state,
PID pair and its immutable configuration). -/
structure UAVState where
  position : Vec3
  velocity : Vec3
  acceleration : Vec3
  cfg : ControlConfig
  ctrlState : ControlState
  pids : ControlPIDs

/-- The `UAV` constructor: start position, zero velocity/acceleration, the
default-constructed control state, and the two default PID controllers
`PIDController(5, 1.0, 0.5, 100.0, 20.0)` / `PIDController(0.8, 0.0, 10.0, 100.0, 10.0)`. -/
def uavInit (startPos : Vec3) (cfg : ControlConfig) : UAVState :=
  { position := startPos
    velocity := ⟨0, 0, 0⟩
    acceleration := ⟨0, 0, 0⟩
    cfg := cfg
    ctrlState := initialControlState
    pids := { radialPID := pidInit 5 1 0.5 100 20, speedPID := pidInit 0.8 0 10 100 10 } }

/-- One iteration of `UAV::threadFunc` (fixed timestep `dt = 0.01`):
control force, explicit-Euler integration, ground contact, and the
climb-phase hard speed cap. -/
def uavStep (u : UAVState) : UAVState :=
  let dt : ℝ := 0.01
  let out := computeControlForce u.position u.velocity u.ctrlState u.pids u.cfg dt
  let accel := (out.force.divs mass).add ⟨0, 0, -g⟩
  let vel1 := u.velocity.add (accel.smul dt)
  let pos1 := u.position.add (vel1.smul dt)
  let pos2 := if pos1.z < 0 then { pos1 with z := 0 } else pos1
  let vel2 := if pos1.z < 0 ∧ vel1.z < 0 then { vel1 with z := 0 } else vel1
  let vel3 :=
    if out.state.phase = Phase.ClimbToCenter ∧ vel2.mag > 2 ∧ vel2.mag > 1e-6 then
      vel2.smul (2 / vel2.mag)
    else vel2
  { u with position := pos2, velocity := vel3, acceleration := accel,
           ctrlState := out.state, pids := out.pids }

/-! ## Swarm collision pass (`checkAndResolveCollisions`) -/

/-- `UAV::Snapshot`: one agent's kinematic state. -/
structure Snapshot where
  pos : Vec3
  vel : Vec3
  acc : Vec3

/-- The body of the double loop of `checkAndResolveCollisions` for one pair
`(i, j)`: distances are measured between *snapshotted* positions, and on a
violation each agent of the pair receives the other's *snapshotted*
velocity via `setVelocity`. -/
def collStep (snaps : ℕ → Snapshot) (minDist : ℝ) (cur : ℕ → Snapshot)
    (p : ℕ × ℕ) : ℕ → Snapshot :=
  if distance (snaps p.1).pos (snaps p.2).pos < minDist then
    let cur1 := Function.update cur p.1 { cur p.1 with vel := (snaps p.2).vel }
    Function.update cur1 p.2 { cur1 p.2 with vel := (snaps p.1).vel }
  else cur

/-- All index pairs `(i, j)` with `i < j < n`, in the iteration order of the
nested loops (`i` outer ascending, `j` inner ascending from `i+1`). -/
def allPairs (n : ℕ) : List (ℕ × ℕ) :=
  (List.range n).flatMap fun i =>
    ((List.range n).filter fun j => decide (i < j)).map fun j => (i, j)

/-- `checkAndResolveCollisions(uavs, minDist)`.  The collection of `n`
agents is modelled as an indexed family of kinematic states; the snapshot
vector is captured once (the input family) and all pair checks read it. -/
def checkAndResolveCollisions (n : ℕ) (A : ℕ → Snapshot) (minDist : ℝ) :
    ℕ → Snapshot :=
  if n < 2 then A
  else (allPairs n).foldl (collStep A minDist) A

/-! ## Call sequences on a `PIDController` -/

/-- One public call on a `PIDController`. -/
inductive PIDOp where
  | calcOp (error dt : ℝ)
  | resetOp
  | setGainsOp (p i d : ℝ)

/-- Apply one call (discarding the output of `calculate`). -/
def applyOp (c : PIDController) : PIDOp → PIDController
  | PIDOp.calcOp e dt => (c.calculate e dt).2
  | PIDOp.resetOp => c.reset
  | PIDOp.setGainsOp p i d => c.setGains p i d

/-- Run a sequence of calls. -/
def runOps (c : PIDController) (ops : List PIDOp) : PIDController :=
  ops.foldl applyOp c

end

/-! ## Exact rational refinement of the simulation on the vertical axis

For an agent whose position and velocity lie on the z-axis through the
default sphere center `(0, 0, 50)` and whose phase is `GroundWait` or
`ClimbToCenter`, every square root taken by `uavStep` is the square root of
a perfect square, so one simulation tick is exactly computable in exact
rational arithmetic.  `Q` below is a rational-number representation whose
operations reduce inside the kernel (its gcd uses fuel-based structural
recursion), so long concrete runs can be checked by `decide`.  `zstep`
mirrors `uavStep` (with the default configuration and the constructor PID
gains) on that subspace and returns `none` if the step would enter the
`OnSphere` phase (where the tangential force leaves the axis). -/

/-- Euclid's algorithm with explicit fuel (structural recursion, so that
the kernel can evaluate it on literals). -/
def gcdF : ℕ → ℕ → ℕ → ℕ
  | 0, _, n => n
  | fuel + 1, m, n => if m = 0 then n else gcdF fuel (n % m) m

/-- Greatest common divisor via `gcdF` (fuel `m + 1` always suffices). -/
def myGcd (m n : ℕ) : ℕ := gcdF (m + 1) m n

/-- Kernel-reducible rational numbers: numerator and (denominator − 1), so
the denominator `dm1 + 1` is positive by construction. -/
structure Q where
  num : ℤ
  dm1 : ℕ
deriving DecidableEq, Repr

namespace Q

/-- The (always positive) denominator. -/
def den (q : Q) : ℕ := q.dm1 + 1

/-- The real number represented. -/
noncomputable def toR (q : Q) : ℝ := (q.num : ℝ) / (q.den : ℝ)

/-- `n / (dm1 + 1)` in lowest terms. -/
def norm (n : ℤ) (dm1 : ℕ) : Q :=
  let d := dm1 + 1
  let g := myGcd n.natAbs d
  ⟨n / (g : ℤ), d / g - 1⟩

/-- Addition. -/
def add (a b : Q) : Q :=
  norm (a.num * (b.den : ℤ) + b.num * (a.den : ℤ)) (a.den * b.den - 1)

/-- Negation. -/
def neg (a : Q) : Q := ⟨-a.num, a.dm1⟩

/-- Subtraction. -/
def sub (a b : Q) : Q := a.add b.neg

/-- Multiplication. -/
def mul (a b : Q) : Q := norm (a.num * b.num) (a.den * b.den - 1)

/-- Division (`x / 0 = 0`, matching real division in Lean). -/
def div (a b : Q) : Q :=
  if b.num = 0 then ⟨0, 0⟩
  else norm (a.num * (b.den : ℤ) * Int.sign b.num) (a.den * b.num.natAbs - 1)

/-- Absolute value. -/
def abs (a : Q) : Q := ⟨|a.num|, a.dm1⟩

/-- Strict order by cross-multiplication (denominators are positive). -/
def lt (a b : Q) : Prop := a.num * (b.den : ℤ) < b.num * (a.den : ℤ)

/-- Non-strict order by cross-multiplication. -/
def le (a b : Q) : Prop := a.num * (b.den : ℤ) ≤ b.num * (a.den : ℤ)

instance (a b : Q) : Decidable (a.lt b) :=
  inferInstanceAs (Decidable (a.num * (b.den : ℤ) < b.num * (a.den : ℤ)))

instance (a b : Q) : Decidable (a.le b) :=
  inferInstanceAs (Decidable (a.num * (b.den : ℤ) ≤ b.num * (a.den : ℤ)))

/-- An integer as a `Q`. -/
def ofInt (n : ℤ) : Q := ⟨n, 0⟩

/-- `std::clamp` over `Q`. -/
def clamp (v lo hi : Q) : Q :=
  if v.lt lo then lo else if hi.lt v then hi else v

end Q

/-- z-axis agent state: control phase, `timeInPhase`, height `z`, vertical
velocity and acceleration, and the radial PID's accumulated state. -/
structure ZState where
  phase : Phase
  t : Q
  z : Q
  vz : Q
  az : Q
  intg : Q
  prevE : Q
deriving DecidableEq, Repr

/-- The fixed timestep `0.01` as a `Q`. -/
def dtQ : Q := ⟨1, 99⟩

/-- `1e-8` as a `Q`. -/
def epsQ : Q := ⟨1, 99999999⟩

/-- Physics part of one tick (mirrors steps 3–6 of `UAV::threadFunc`) given
the new control outputs: phase `ph`, `timeInPhase` `t`, radial PID state
`intg`/`prevE` and vertical motor force `fz`. -/
def zPhysics (s : ZState) (ph : Phase) (t intg prevE fz : Q) : ZState :=
  let az := (fz.div (Q.ofInt 1)).add (Q.ofInt (-10))
  let vz1 := s.vz.add (az.mul dtQ)
  let z1 := s.z.add (vz1.mul dtQ)
  let z2 := if z1.lt (Q.ofInt 0) then Q.ofInt 0 else z1
  let vz2 := if z1.lt (Q.ofInt 0) ∧ vz1.lt (Q.ofInt 0) then Q.ofInt 0 else vz1
  let vz3 :=
    if ph = Phase.ClimbToCenter ∧ (Q.ofInt 2).lt vz2.abs ∧ (⟨1, 999999⟩ : Q).lt vz2.abs then
      vz2.mul ((Q.ofInt 2).div vz2.abs)
    else vz2
  ⟨ph, t, z2, vz3, az, intg, prevE⟩

/-- Radial error of the z-axis climb: `toCenter.mag = |50 − z|`. -/
def zClimbR (s : ZState) : Q := ((Q.ofInt 50).sub s.z).abs

/-- z-component of `radialDir = toCenter.normalized()`. -/
def zClimbRdz (s : ZState) : Q :=
  if (zClimbR s).lt epsQ then Q.ofInt 0 else ((Q.ofInt 50).sub s.z).div (zClimbR s)

/-- Updated radial-PID integral accumulator (gain limits 100). -/
def zClimbIntegral (s : ZState) : Q :=
  Q.clamp (s.intg.add ((zClimbR s).mul dtQ)) (Q.ofInt (-100)) (Q.ofInt 100)

/-- Radial-PID output (gains 5, 1, 1/2; output limit 20). -/
def zClimbOut (s : ZState) : Q :=
  Q.clamp
    ((((Q.ofInt 5).mul (zClimbR s)).add ((Q.ofInt 1).mul (zClimbIntegral s))).add
      ((⟨1, 1⟩ : Q).mul (((zClimbR s).sub s.prevE).div dtQ)))
    (Q.ofInt (-20)) (Q.ofInt 20)

/-- z-component of the climb motor force: radial PID thrust, speed
damping above 2 m/s, final magnitude clamp to `maxForce = 20`. -/
def zClimbFz (s : ZState) : Q :=
  let fz0 := (zClimbRdz s).mul (zClimbOut s)
  let speed := s.vz.abs
  let fz1 :=
    if (Q.ofInt 2).lt speed then
      fz0.sub ((if speed.lt epsQ then Q.ofInt 0 else s.vz.div speed).mul
        ((⟨1, 1⟩ : Q).mul (speed.sub (Q.ofInt 2))))
    else fz0
  if fz1.abs.le (Q.ofInt 20) ∨ fz1.abs.lt epsQ then fz1
  else fz1.mul ((Q.ofInt 20).div fz1.abs)

/-- One exact tick of the z-axis agent; `none` when the tick would reach
`OnSphere` (distance to center below the arrival tolerance 2). -/
def zstep (s : ZState) : Option ZState :=
  if s.phase = Phase.OnSphere then none
  else
    let t1 := s.t.add dtQ
    if s.phase = Phase.GroundWait ∧ t1.lt (Q.ofInt 5) then
      -- sit on ground, zero force, PID untouched
      some (zPhysics s Phase.GroundWait t1 s.intg s.prevE (Q.ofInt 0))
    else
      let t2 : Q := if s.phase = Phase.GroundWait then Q.ofInt 0 else t1
      if ((s.z.sub (Q.ofInt 50)).abs).lt (Q.ofInt 2) then none
      else some (zPhysics s Phase.ClimbToCenter t2 (zClimbIntegral s) (zClimbR s) (zClimbFz s))

/-- `n` exact ticks. -/
def iterateZ : ℕ → ZState → Option ZState
  | 0, s => some s
  | n + 1, s => (iterateZ n s).bind zstep

/-- z-axis state of a freshly constructed agent on the ground at the origin. -/
def z0 : ZState :=
  ⟨Phase.GroundWait, Q.ofInt 0, Q.ofInt 0, Q.ofInt 0, Q.ofInt 0, Q.ofInt 0, Q.ofInt 0⟩

/-- The last element of a list satisfying `P`, if any (the value an
iterated overwrite leaves behind). -/
def lastSat {α : Type} (P : α → Prop) [DecidablePred P] : List α → Option α
  | [] => none
  | a :: l =>
    match lastSat P l with
    | some b => some b
    | none => if P a then some a else none

/-- The z-axis state reached after `50 * k` ticks from `z0`
(`k = 0, …, 11`), computed by evaluating `iterateZ` and verified by the
chunked `decide` proofs below. -/
def zChainState : ℕ → ZState
  | 0 => z0
  | 1 => ⟨Phase.GroundWait, ⟨1, 1⟩, ⟨0, 0⟩, ⟨0, 0⟩, ⟨-10, 0⟩, ⟨0, 0⟩, ⟨0, 0⟩⟩
  | 2 => ⟨Phase.GroundWait, ⟨1, 0⟩, ⟨0, 0⟩, ⟨0, 0⟩, ⟨-10, 0⟩, ⟨0, 0⟩, ⟨0, 0⟩⟩
  | 3 => ⟨Phase.GroundWait, ⟨3, 1⟩, ⟨0, 0⟩, ⟨0, 0⟩, ⟨-10, 0⟩, ⟨0, 0⟩, ⟨0, 0⟩⟩
  | 4 => ⟨Phase.GroundWait, ⟨2, 0⟩, ⟨0, 0⟩, ⟨0, 0⟩, ⟨-10, 0⟩, ⟨0, 0⟩, ⟨0, 0⟩⟩
  | 5 => ⟨Phase.GroundWait, ⟨5, 1⟩, ⟨0, 0⟩, ⟨0, 0⟩, ⟨-10, 0⟩, ⟨0, 0⟩, ⟨0, 0⟩⟩
  | 6 => ⟨Phase.GroundWait, ⟨3, 0⟩, ⟨0, 0⟩, ⟨0, 0⟩, ⟨-10, 0⟩, ⟨0, 0⟩, ⟨0, 0⟩⟩
  | 7 => ⟨Phase.GroundWait, ⟨7, 1⟩, ⟨0, 0⟩, ⟨0, 0⟩, ⟨-10, 0⟩, ⟨0, 0⟩, ⟨0, 0⟩⟩
  | 8 => ⟨Phase.GroundWait, ⟨4, 0⟩, ⟨0, 0⟩, ⟨0, 0⟩, ⟨-10, 0⟩, ⟨0, 0⟩, ⟨0, 0⟩⟩
  | 9 => ⟨Phase.GroundWait, ⟨9, 1⟩, ⟨0, 0⟩, ⟨0, 0⟩, ⟨-10, 0⟩, ⟨0, 0⟩, ⟨0, 0⟩⟩
  | 10 => ⟨Phase.ClimbToCenter, ⟨0, 0⟩, ⟨1, 999⟩, ⟨1, 9⟩, ⟨10, 0⟩, ⟨1, 1⟩, ⟨50, 0⟩⟩
  | _ => ⟨Phase.ClimbToCenter, ⟨1, 1⟩, ⟨861, 999⟩, ⟨2, 0⟩, ⟨10, 0⟩, ⟨506479, 19999⟩,
         ⟨1229, 24⟩⟩

noncomputable section

/-- The PID pair of the z-axis agent: the constructor gains with the given
radial accumulated state, the speed controller untouched. -/
def pidsEmbed (i p : Q) : ControlPIDs :=
  { radialPID := ⟨5, 1, 0.5, i.toR, p.toR, 100, 20⟩
    speedPID := pidInit 0.8 0 10 100 10 }

/-- Real-valued z-component of the ClimbToCenter force computed by
`computeControlForce` for a z-axis agent (mirrors the climb branch). -/
def climbFz (zR vzR : ℝ) (pids : ControlPIDs) (dt : ℝ) : ℝ :=
  let r := |50 - zR|
  let rdz := if r < 1e-8 then 0 else (50 - zR) / r
  let out := (pids.radialPID.calculate r dt).1
  let fz0 := rdz * out
  let speed := |vzR|
  let fz1 :=
    if speed > 2 then fz0 - (if speed < 1e-8 then 0 else vzR / speed) * (0.5 * (speed - 2))
    else fz0
  if |fz1| ≤ 20 ∨ |fz1| < 1e-8 then fz1 else fz1 * (20 / |fz1|)

/-- Interpret a z-axis state as a full `UAVState` (default configuration,
constructor PID gains, default wander direction, center never visited). -/
def embedZ (s : ZState) : UAVState :=
  { position := ⟨0, 0, s.z.toR⟩
    velocity := ⟨0, 0, s.vz.toR⟩
    acceleration := ⟨0, 0, s.az.toR⟩
    cfg := defaultConfig
    ctrlState := { phase := s.phase, timeInPhase := s.t.toR,
                   visitedCenter := false, tangentialDir := ⟨1, 0, 0⟩ }
    pids := pidsEmbed s.intg s.prevE }

/-- The concrete scenario of the spec: agent constructed at the origin with
the default configuration (`groundWait = 5.0`). -/
def scenarioAgent : UAVState := uavInit ⟨0, 0, 0⟩ defaultConfig

end

attribute [ext] Vec3 PIDController ControlState ControlConfig ControlPIDs
attribute [ext] CCFOut UAVState Snapshot Q ZState

/-! # Theorems -/

/-! ## Basic facts about the vector and clamp primitives -/

theorem Vec3.mag_zzc (c : ℝ) : Vec3.mag ⟨0, 0, c⟩ = |c| := by
  show Real.sqrt (0 * 0 + 0 * 0 + c * c) = |c|
  rw [show (0 : ℝ) * 0 + 0 * 0 + c * c = c * c by ring, Real.sqrt_mul_self_eq_abs]

theorem Vec3.mag_czz (c : ℝ) : Vec3.mag ⟨c, 0, 0⟩ = |c| := by
  show Real.sqrt (c * c + 0 * 0 + 0 * 0) = |c|
  rw [show c * c + (0 : ℝ) * 0 + 0 * 0 = c * c by ring, Real.sqrt_mul_self_eq_abs]

theorem Vec3.mag_nonneg (v : Vec3) : 0 ≤ v.mag := Real.sqrt_nonneg _

theorem Vec3.mag_smul (v : Vec3) (s : ℝ) : (v.smul s).mag = |s| * v.mag := by
  show Real.sqrt (v.x * s * (v.x * s) + v.y * s * (v.y * s) + v.z * s * (v.z * s)) = _
  rw [show v.x * s * (v.x * s) + v.y * s * (v.y * s) + v.z * s * (v.z * s)
        = s * s * (v.x * v.x + v.y * v.y + v.z * v.z) by ring,
      Real.sqrt_mul (mul_self_nonneg s), Real.sqrt_mul_self_eq_abs]
  rfl

theorem Vec3.smul_one (v : Vec3) : v.smul 1 = v := by
  unfold Vec3.smul; ext <;> simp

theorem cppClamp_abs_le (x l : ℝ) (hl : 0 ≤ l) : |cppClamp x (-l) l| ≤ l := by
  unfold cppClamp
  split_ifs with h1 h2
  · rw [abs_neg, abs_of_nonneg hl]
  · rw [abs_of_nonneg hl]
  · exact abs_le.mpr ⟨le_of_not_lt h1, le_of_not_lt h2⟩

/-! ## C7: `calculate` with non-positive `dt` is a no-op returning 0 -/

/-- C7: for every error value and every `dt ≤ 0`, `PIDController.calculate`
returns 0 and leaves the whole controller state (integral, previous error,
gains and limits) unchanged. -/
theorem calculate_nonpos_dt_noop (c : PIDController) (e dt : ℝ) (h : dt ≤ 0) :
    c.calculate e dt = (0, c) := by
  unfold PIDController.calculate
  rw [if_pos h]

/-- Witness for C7 at `dt = 0` on a concrete controller. -/
theorem calculate_nonpos_dt_noop_witness :
    (0 : ℝ) ≤ 0 ∧ (pidInit 5 1 0.5 100 20).calculate 3 0 = (0, pidInit 5 1 0.5 100 20) :=
  ⟨le_refl 0, calculate_nonpos_dt_noop (pidInit 5 1 0.5 100 20) 3 0 (le_refl 0)⟩

/-! ## C5: clamping invariants over arbitrary call sequences -/

theorem applyOp_limits (c : PIDController) (op : PIDOp) :
    (applyOp c op).integral_limit = c.integral_limit ∧
      (applyOp c op).output_limit = c.output_limit := by
  cases op with
  | calcOp e dt =>
    simp only [applyOp, PIDController.calculate]
    split_ifs <;> exact ⟨rfl, rfl⟩
  | resetOp => exact ⟨rfl, rfl⟩
  | setGainsOp p i d => exact ⟨rfl, rfl⟩

theorem applyOp_integral_bound (c : PIDController) (op : PIDOp)
    (hil : 0 ≤ c.integral_limit) (h : |c.integral| ≤ c.integral_limit) :
    |(applyOp c op).integral| ≤ c.integral_limit := by
  cases op with
  | calcOp e dt =>
    simp only [applyOp, PIDController.calculate]
    split_ifs with hdt
    · exact h
    · exact cppClamp_abs_le _ _ hil
  | resetOp => simpa [applyOp, PIDController.reset] using hil
  | setGainsOp p i d => exact h

theorem runOps_integral_bound (c : PIDController) (ops : List PIDOp)
    (hil : 0 ≤ c.integral_limit) (h : |c.integral| ≤ c.integral_limit) :
    |(runOps c ops).integral| ≤ c.integral_limit ∧
      (runOps c ops).integral_limit = c.integral_limit ∧
      (runOps c ops).output_limit = c.output_limit := by
  induction ops generalizing c with
  | nil => exact ⟨h, rfl, rfl⟩
  | cons op ops ih =>
    have hlim := applyOp_limits c op
    have := ih (applyOp c op) (hlim.1.symm ▸ hil)
      (hlim.1.symm ▸ applyOp_integral_bound c op hil h)
    simp only [runOps, List.foldl_cons] at *
    exact ⟨hlim.1 ▸ this.1, hlim.1 ▸ this.2.1, hlim.2 ▸ this.2.2⟩

theorem calculate_output_bound (c : PIDController) (e dt : ℝ)
    (hol : 0 ≤ c.output_limit) : |(c.calculate e dt).1| ≤ c.output_limit := by
  unfold PIDController.calculate
  split_ifs with hdt
  · simpa using hol
  · exact cppClamp_abs_le _ _ hol

/-- C5: over every sequence of `calculate`, `reset` and `setGains` calls on
a constructed `PIDController` (with the clamp bounds nonnegative, as
`std::clamp` requires `lo ≤ hi`), the integral accumulator always lies in
`[-integralLimit, integralLimit]`, and every output of `calculate` lies in
`[-outputLimit, outputLimit]`. -/
theorem pid_sequence_invariant (kp ki kd il ol : ℝ) (ops : List PIDOp) (e dt : ℝ)
    (hil : 0 ≤ il) (hol : 0 ≤ ol) :
    |(runOps (pidInit kp ki kd il ol) ops).integral| ≤ il ∧
      |((runOps (pidInit kp ki kd il ol) ops).calculate e dt).1| ≤ ol := by
  have h := runOps_integral_bound (pidInit kp ki kd il ol) ops hil
    (by simpa [pidInit] using hil)
  refine ⟨h.1, ?_⟩
  have := calculate_output_bound (runOps (pidInit kp ki kd il ol) ops) e dt
    (by rw [h.2.2]; exact hol)
  rwa [h.2.2] at this

/-- Witness for C5: a concrete two-call sequence on a concrete controller. -/
theorem pid_sequence_invariant_witness :
    |(runOps (pidInit 1 1 1 100 10) [PIDOp.calcOp 3 1, PIDOp.resetOp]).integral| ≤ 100 ∧
      |((runOps (pidInit 1 1 1 100 10) [PIDOp.calcOp 3 1, PIDOp.resetOp]).calculate 2 1).1| ≤ 10 :=
  pid_sequence_invariant 1 1 1 100 10 [PIDOp.calcOp 3 1, PIDOp.resetOp] 2 1
    (by norm_num) (by norm_num)

/-! ## The collision pass: supporting lemmas -/

theorem distance_symm (a b : Vec3) : distance a b = distance b a := by
  simp only [distance, Vec3.mag, Vec3.sub]
  congr 1
  ring

theorem collStep_pos (A : ℕ → Snapshot) (d : ℝ) (cur : ℕ → Snapshot) (p : ℕ × ℕ) (k : ℕ) :
    ((collStep A d cur p) k).pos = (cur k).pos := by
  unfold collStep
  split_ifs with h
  · simp only [Function.update_apply]
    split_ifs <;> simp_all
  · rfl

theorem foldl_collStep_pos (A : ℕ → Snapshot) (d : ℝ) (L : List (ℕ × ℕ))
    (cur : ℕ → Snapshot) (k : ℕ) :
    ((L.foldl (collStep A d) cur) k).pos = (cur k).pos := by
  induction L generalizing cur with
  | nil => rfl
  | cons p L ih => rw [List.foldl_cons, ih, collStep_pos]

theorem lastSat_some {α : Type} (P : α → Prop) [DecidablePred P] (L : List α) (q : α)
    (h : lastSat P L = some q) : q ∈ L ∧ P q := by
  induction L with
  | nil => simp [lastSat] at h
  | cons p L ih =>
    simp only [lastSat] at h
    cases hl : lastSat P L with
    | some b =>
      rw [hl] at h
      obtain ⟨hm, hp⟩ := ih (h ▸ hl)
      exact ⟨List.mem_cons_of_mem _ hm, hp⟩
    | none =>
      rw [hl] at h
      split_ifs at h with hp
      · cases h; exact ⟨List.mem_cons_self _ _, hp⟩

theorem lastSat_none_of {α : Type} (P : α → Prop) [DecidablePred P] (L : List α)
    (h : ∀ b ∈ L, ¬ P b) : lastSat P L = none := by
  induction L with
  | nil => rfl
  | cons p L ih =>
    simp only [lastSat]
    rw [ih (fun b hb => h b (List.mem_cons_of_mem _ hb))]
    rw [if_neg (h p (List.mem_cons_self _ _))]

theorem lastSat_none_forall {α : Type} (P : α → Prop) [DecidablePred P] (L : List α)
    (h : lastSat P L = none) : ∀ b ∈ L, ¬ P b := by
  induction L with
  | nil => intro b hb; simp at hb
  | cons p L ih =>
    simp only [lastSat] at h
    cases hl : lastSat P L with
    | some q => rw [hl] at h; cases h
    | none =>
      rw [hl] at h
      by_cases hp : P p
      · rw [if_pos hp] at h; cases h
      · intro b hb
        rcases List.mem_cons.mp hb with rfl | hbL
        · exact hp
        · exact ih hl b hbL

theorem lastSat_eq_some_of_unique {α : Type} (P : α → Prop) [DecidablePred P]
    (L : List α) (a : α) (ha : a ∈ L) (hPa : P a) (huniq : ∀ b ∈ L, P b → b = a) :
    lastSat P L = some a := by
  induction L with
  | nil => simp at ha
  | cons p L ih =>
    simp only [lastSat]
    cases hl : lastSat P L with
    | some q =>
      obtain ⟨hqm, hqP⟩ := lastSat_some P L q hl
      rw [huniq q (List.mem_cons_of_mem _ hqm) hqP]
    | none =>
      rcases List.mem_cons.mp ha with rfl | haL
      · rw [if_pos hPa]
      · exact absurd hPa (lastSat_none_forall P L hl a haL)

theorem foldl_collStep_vel (A : ℕ → Snapshot) (d : ℝ) (k : ℕ) (L : List (ℕ × ℕ))
    (cur : ℕ → Snapshot) :
    ((L.foldl (collStep A d) cur) k).vel =
      (match lastSat (fun p => (p.1 = k ∨ p.2 = k) ∧ distance (A p.1).pos (A p.2).pos < d) L with
       | some p => (A (if p.2 = k then p.1 else p.2)).vel
       | none => (cur k).vel) := by
  induction L generalizing cur with
  | nil => rfl
  | cons p L ih =>
    rw [List.foldl_cons, ih]
    simp only [lastSat]
    cases hl : lastSat
        (fun p => (p.1 = k ∨ p.2 = k) ∧ distance (A p.1).pos (A p.2).pos < d) L with
    | some q => rfl
    | none =>
      by_cases hp : (p.1 = k ∨ p.2 = k) ∧ distance (A p.1).pos (A p.2).pos < d
      · rw [if_pos hp]
        unfold collStep
        rw [if_pos hp.2]
        simp only [Function.update_apply]
        by_cases h2 : k = p.2
        · simp [h2]
        · have h1 : p.1 = k := hp.1.resolve_right (fun hh => h2 hh.symm)
          have h2' : ¬ p.2 = k := fun hh => h2 hh.symm
          simp [h1, h2, h2']
      · rw [if_neg hp]
        unfold collStep
        split_ifs with hcol
        · have hk : ¬ (p.1 = k ∨ p.2 = k) := fun hi => hp ⟨hi, hcol⟩
          push_neg at hk
          have hk1 : ¬ k = p.1 := fun hh => hk.1 hh.symm
          have hk2 : ¬ k = p.2 := fun hh => hk.2 hh.symm
          simp [Function.update_apply, hk1, hk2]
        · rfl

theorem mem_allPairs (n : ℕ) (p : ℕ × ℕ) :
    p ∈ allPairs n ↔ p.1 < p.2 ∧ p.2 < n := by
  unfold allPairs
  simp only [List.mem_flatMap, List.mem_map, List.mem_filter, List.mem_range,
    decide_eq_true_eq]
  constructor
  · rintro ⟨i, hi, j, ⟨hj, hij⟩, rfl⟩
    exact ⟨hij, hj⟩
  · rintro ⟨h12, h2n⟩
    exact ⟨p.1, lt_trans h12 h2n, p.2, ⟨h2n, h12⟩, rfl⟩

/-! ## C10: the collision pass on fewer than two agents is the identity -/

/-- C10: with an empty or singleton collection (`n < 2`),
`checkAndResolveCollisions` returns immediately and no agent's position,
velocity or acceleration changes. -/
theorem collisions_small_noop (n : ℕ) (A : ℕ → Snapshot) (d : ℝ) (h : n < 2) :
    checkAndResolveCollisions n A d = A := by
  unfold checkAndResolveCollisions
  rw [if_pos h]

/-- Witness for C10: one concrete agent. -/
theorem collisions_small_noop_witness :
    1 < 2 ∧ checkAndResolveCollisions 1
        (fun _ => ⟨⟨0, 0, 0⟩, ⟨1, 2, 3⟩, ⟨0, 0, 0⟩⟩) 5
      = (fun _ => ⟨⟨0, 0, 0⟩, ⟨1, 2, 3⟩, ⟨0, 0, 0⟩⟩) :=
  ⟨by norm_num,
    collisions_small_noop 1 (fun _ => ⟨⟨0, 0, 0⟩, ⟨1, 2, 3⟩, ⟨0, 0, 0⟩⟩) 5 (by norm_num)⟩

/-! ## C9: snapshot semantics — the last colliding partner wins -/

/-- C9: within one `checkAndResolveCollisions` call, all distances are
computed from the pre-pass snapshot and all written velocities are
snapshot velocities, so agent `k` ends the pass with the snapshot velocity
of its last colliding partner in the iteration order over pairs
`(i, j)`, `i < j` (and keeps its own velocity if it collides with no one). -/
theorem collisions_last_partner_wins (n : ℕ) (A : ℕ → Snapshot) (d : ℝ) (k : ℕ) :
    (checkAndResolveCollisions n A d k).vel =
      (match lastSat
          (fun p => (p.1 = k ∨ p.2 = k) ∧ distance (A p.1).pos (A p.2).pos < d)
          (allPairs n) with
       | some p => (A (if p.2 = k then p.1 else p.2)).vel
       | none => (A k).vel) := by
  unfold checkAndResolveCollisions
  split_ifs with hn
  · interval_cases n <;> rfl
  · exact foldl_collStep_vel A d k (allPairs n) A

/-! ## C6: a unique colliding pair swaps velocities; bystanders untouched -/

/-- C6: if exactly one pair `(a, b)` of agents has snapshotted distance
below `minDist`, the pass gives `a` agent `b`'s pre-call velocity and vice
versa; every agent not within `minDist` of any other keeps its velocity;
and no agent's position is mutated. -/
theorem collisions_unique_pair_swap (n : ℕ) (A : ℕ → Snapshot) (d : ℝ) (a b : ℕ)
    (hab : a < b) (hbn : b < n)
    (hcol : distance (A a).pos (A b).pos < d)
    (huniq : ∀ i j, i < j → j < n → distance (A i).pos (A j).pos < d → i = a ∧ j = b) :
    (checkAndResolveCollisions n A d a).vel = (A b).vel ∧
      (checkAndResolveCollisions n A d b).vel = (A a).vel ∧
      (∀ k, (∀ m, m ≠ k → ¬ distance (A k).pos (A m).pos < d) →
        (checkAndResolveCollisions n A d k).vel = (A k).vel) ∧
      (∀ k, (checkAndResolveCollisions n A d k).pos = (A k).pos) := by
  have hn2 : ¬ n < 2 := by omega
  have hmem : (a, b) ∈ allPairs n := (mem_allPairs n (a, b)).mpr ⟨hab, hbn⟩
  have huniq' : ∀ k : ℕ, ∀ q ∈ allPairs n,
      (q.1 = k ∨ q.2 = k) ∧ distance (A q.1).pos (A q.2).pos < d → q = (a, b) := by
    intro k q hq hPq
    obtain ⟨h12, h2n⟩ := (mem_allPairs n q).mp hq
    obtain ⟨rfl, rfl⟩ := huniq q.1 q.2 h12 h2n hPq.2
    rfl
  refine ⟨?_, ?_, ?_, ?_⟩
  · rw [collisions_last_partner_wins,
      lastSat_eq_some_of_unique _ _ (a, b) hmem ⟨Or.inl rfl, hcol⟩ (huniq' a)]
    have : ¬ b = a := by omega
    simp [this]
  · rw [collisions_last_partner_wins,
      lastSat_eq_some_of_unique _ _ (a, b) hmem ⟨Or.inr rfl, hcol⟩ (huniq' b)]
    simp
  · intro k hk
    rw [collisions_last_partner_wins,
      lastSat_none_of _ _ ?_]
    intro q hq hPq
    obtain ⟨h12, h2n⟩ := (mem_allPairs n q).mp hq
    rcases hPq.1 with h1 | h2
    · exact hk q.2 (by omega) (h1 ▸ hPq.2)
    · exact hk q.1 (by omega) (by rw [distance_symm]; exact h2 ▸ hPq.2)
  · intro k
    unfold checkAndResolveCollisions
    rw [if_neg hn2]
    exact foldl_collStep_pos A d (allPairs n) A k

theorem distance_xaxis (a b : ℝ) : distance ⟨a, 0, 0⟩ ⟨b, 0, 0⟩ = |a - b| := by
  show Vec3.mag ⟨a - b, 0 - 0, 0 - 0⟩ = |a - b|
  rw [show (⟨a - b, 0 - 0, 0 - 0⟩ : Vec3) = ⟨a - b, 0, 0⟩ by norm_num, Vec3.mag_czz]

theorem distance_zaxis (a b : ℝ) : distance ⟨0, 0, a⟩ ⟨0, 0, b⟩ = |a - b| := by
  show Vec3.mag ⟨0 - 0, 0 - 0, a - b⟩ = |a - b|
  rw [show (⟨0 - 0, 0 - 0, a - b⟩ : Vec3) = ⟨0, 0, a - b⟩ by norm_num, Vec3.mag_zzc]

/-- Witness for C6: the spec's concrete scenario — agents at `(0,0,0)` and
`(0.005,0,0)` with `minDist = 0.01` swap velocities exactly; a third agent
at `(100,0,0)` is distant. -/
theorem collisions_unique_pair_swap_witness :
    (checkAndResolveCollisions 3
        (fun m => if m = 0 then (⟨⟨0, 0, 0⟩, ⟨1, 2, 3⟩, ⟨0, 0, 0⟩⟩ : Snapshot)
          else if m = 1 then ⟨⟨0.005, 0, 0⟩, ⟨4, 5, 6⟩, ⟨0, 0, 0⟩⟩
          else ⟨⟨100, 0, 0⟩, ⟨7, 8, 9⟩, ⟨0, 0, 0⟩⟩) 0.01 0).vel = ⟨4, 5, 6⟩ ∧
      (checkAndResolveCollisions 3
        (fun m => if m = 0 then (⟨⟨0, 0, 0⟩, ⟨1, 2, 3⟩, ⟨0, 0, 0⟩⟩ : Snapshot)
          else if m = 1 then ⟨⟨0.005, 0, 0⟩, ⟨4, 5, 6⟩, ⟨0, 0, 0⟩⟩
          else ⟨⟨100, 0, 0⟩, ⟨7, 8, 9⟩, ⟨0, 0, 0⟩⟩) 0.01 1).vel = ⟨1, 2, 3⟩ := by
  have h := collisions_unique_pair_swap 3
      (fun m => if m = 0 then (⟨⟨0, 0, 0⟩, ⟨1, 2, 3⟩, ⟨0, 0, 0⟩⟩ : Snapshot)
        else if m = 1 then ⟨⟨0.005, 0, 0⟩, ⟨4, 5, 6⟩, ⟨0, 0, 0⟩⟩
        else ⟨⟨100, 0, 0⟩, ⟨7, 8, 9⟩, ⟨0, 0, 0⟩⟩) 0.01 0 1
      (by norm_num) (by norm_num)
      (by norm_num [distance_xaxis, abs_lt])
      (by
        intro i j hij hj hd
        interval_cases j <;> interval_cases i <;>
          first
            | exact ⟨rfl, rfl⟩
            | (exfalso; norm_num [distance_xaxis, abs_lt] at hd))
  exact ⟨h.1, h.2.1⟩


/-! ## C3: phase order across one call -/

/-- C3 (amended): across every `computeControlForce` call the observed
phase never moves backward in the order GroundWait, ClimbToCenter,
OnSphere; and a single call takes the phase from GroundWait directly to
OnSphere only when, in that same call, the position is already within the
arrival tolerance (distance to center < 2). -/
theorem ccf_phase_monotone (pos vel : Vec3) (st : ControlState) (pids : ControlPIDs)
    (cfg : ControlConfig) (dt : ℝ) :
    phaseIdx st.phase ≤ phaseIdx (computeControlForce pos vel st pids cfg dt).state.phase ∧
      (st.phase = Phase.GroundWait →
        (computeControlForce pos vel st pids cfg dt).state.phase = Phase.OnSphere →
        distance pos cfg.center < 2) := by
  cases hph : st.phase <;>
    simp only [computeControlForce, hph, apply_ite CCFOut.state, apply_ite ControlState.phase] <;>
    simp only [reduceCtorEq, if_true, if_false, true_and, and_true, eq_self_iff_true] <;>
    split_ifs <;> simp_all [phaseIdx]


/-- Counterexample to C3 as stated: one call from the initial GroundWait
state, at the center with `dt = 6`, ends with observed phase OnSphere —
the phase skips ClimbToCenter. -/
theorem ccf_skip_counterexample :
    initialControlState.phase = Phase.GroundWait ∧
      (computeControlForce ⟨0, 0, 50⟩ ⟨0, 0, 0⟩ initialControlState
        ⟨pidInit 5 1 0.5 100 20, pidInit 0.8 0 10 100 10⟩ defaultConfig 6).state.phase
        = Phase.OnSphere := by
  refine ⟨rfl, ?_⟩
  simp only [computeControlForce, apply_ite CCFOut.state, apply_ite ControlState.phase]
  norm_num [initialControlState, defaultConfig, distance_zaxis]


/-! ## C8: GroundWait behaviour -/

/-- C8 (amended): a GroundWait agent gets the exact zero vector and only
its timer advanced while the incremented `timeInPhase` is below
`groundWait`; on the first call where it reaches `groundWait` the phase
leaves GroundWait with `timeInPhase` reset to 0, landing in ClimbToCenter
when the position is at distance ≥ 2 from the center and continuing to
OnSphere in the same call otherwise. -/
theorem ccf_groundWait_behavior (pos vel : Vec3) (st : ControlState) (pids : ControlPIDs)
    (cfg : ControlConfig) (dt : ℝ) (hph : st.phase = Phase.GroundWait) :
    (st.timeInPhase + dt < cfg.groundWait →
      computeControlForce pos vel st pids cfg dt
        = ⟨⟨0, 0, 0⟩, { st with timeInPhase := st.timeInPhase + dt }, pids⟩) ∧
      (cfg.groundWait ≤ st.timeInPhase + dt →
        (computeControlForce pos vel st pids cfg dt).state.timeInPhase = 0 ∧
          (¬ distance pos cfg.center < 2 →
            (computeControlForce pos vel st pids cfg dt).state.phase = Phase.ClimbToCenter) ∧
          (distance pos cfg.center < 2 →
            (computeControlForce pos vel st pids cfg dt).state.phase = Phase.OnSphere)) := by
  refine ⟨fun h1 => ?_, fun h2 => ⟨?_, fun hfar => ?_, fun hnear => ?_⟩⟩
  · simp only [computeControlForce]
    split_ifs with h <;> first | rfl | exact absurd ⟨hph, h1⟩ h
  all_goals
    simp only [computeControlForce, hph, apply_ite CCFOut.state, apply_ite ControlState.phase,
      apply_ite ControlState.timeInPhase]
  all_goals
    simp only [reduceCtorEq, if_true, if_false, true_and, and_true, eq_self_iff_true]
  all_goals split_ifs <;> first | rfl | (exfalso; linarith)


/-! ## C1: arrival at the center -/

theorem calculate_snd (c : PIDController) (e dt : ℝ) :
    (c.calculate e dt).2 =
      if 0 < dt then
        { c with integral := cppClamp (c.integral + e * dt) (-c.integral_limit) c.integral_limit,
                 prev_error := e }
      else c := by
  unfold PIDController.calculate
  rcases le_or_lt dt 0 with h | h
  · rw [if_pos h, if_neg (not_lt.mpr h)]
  · rw [if_neg (not_le.mpr h), if_pos h]


/-- C1 (amended): a ClimbToCenter call with distance to center < 2 ends
with phase OnSphere, `timeInPhase` 0 and the center-visited flag set, and
resets both PID controllers at the transition; the same call then runs one
OnSphere update on each controller, so immediately after the call (for
`dt > 0`) the radial integral equals the clamped `(r − sphereRadius)·dt`
and the speed integral equals the clamped `(targetSpeed − speed)·dt`
(zero only when `dt ≤ 0`). -/
theorem ccf_arrival (pos vel : Vec3) (st : ControlState) (pids : ControlPIDs)
    (cfg : ControlConfig) (dt : ℝ) (hph : st.phase = Phase.ClimbToCenter)
    (hnear : distance pos cfg.center < 2) :
    (computeControlForce pos vel st pids cfg dt).state.phase = Phase.OnSphere ∧
      (computeControlForce pos vel st pids cfg dt).state.timeInPhase = 0 ∧
      (computeControlForce pos vel st pids cfg dt).state.visitedCenter = true ∧
      (computeControlForce pos vel st pids cfg dt).pids.radialPID.integral
        = (if 0 < dt then
            cppClamp (((cfg.center.sub pos).mag - cfg.sphereRadius) * dt)
              (-pids.radialPID.integral_limit) pids.radialPID.integral_limit
          else 0) ∧
      (computeControlForce pos vel st pids cfg dt).pids.speedPID.integral
        = (if 0 < dt then
            cppClamp ((0.5 * (cfg.minSpeed + cfg.maxSpeed) - vel.mag) * dt)
              (-pids.speedPID.integral_limit) pids.speedPID.integral_limit
          else 0) := by
  simp only [computeControlForce, hph, apply_ite CCFOut.state, apply_ite CCFOut.pids,
    apply_ite ControlState.phase, apply_ite ControlState.timeInPhase,
    apply_ite ControlState.visitedCenter, apply_ite ControlPIDs.radialPID,
    apply_ite ControlPIDs.speedPID, apply_ite PIDController.integral, calculate_snd,
    PIDController.reset]
  simp only [reduceCtorEq, if_true, if_false, true_and, and_true, eq_self_iff_true,
    false_and, if_pos hnear]
  split_ifs <;> simp_all [zero_add]


/-- Counterexample to C1 as stated: at distance exactly 1.9 with
`dt = 0.01`, immediately after the call the radial integral accumulator is
−0.081, not zero. -/
theorem ccf_arrival_integral_counterexample :
    (⟨Phase.ClimbToCenter, 3, false, ⟨1, 0, 0⟩⟩ : ControlState).phase = Phase.ClimbToCenter ∧
      distance ⟨0, 0, 48.1⟩ defaultConfig.center < 2 ∧
      (computeControlForce ⟨0, 0, 48.1⟩ ⟨0, 0, 0⟩
          ⟨Phase.ClimbToCenter, 3, false, ⟨1, 0, 0⟩⟩
          ⟨pidInit 5 1 0.5 100 20, pidInit 0.8 0 10 100 10⟩ defaultConfig 0.01).pids.radialPID.integral
        ≠ 0 := by
  refine ⟨rfl, by norm_num [defaultConfig, distance_zaxis, abs_lt], ?_⟩
  simp only [computeControlForce, apply_ite CCFOut.pids, apply_ite ControlPIDs.radialPID,
    apply_ite PIDController.integral, calculate_snd, PIDController.reset,
    reduceCtorEq, if_true, if_false, eq_self_iff_true]
  norm_num [defaultConfig, distance_zaxis, cppClamp, Vec3.mag_zzc, Vec3.sub, pidInit,
    abs_lt, abs_of_nonneg]
  split_ifs <;> first | contradiction | norm_num


/-! ## C4: force magnitude clamping -/

theorem calculate_fst (c : PIDController) (e dt : ℝ) :
    (c.calculate e dt).1 =
      if 0 < dt then
        cppClamp (c.kp * e + c.ki * cppClamp (c.integral + e * dt)
            (-c.integral_limit) c.integral_limit + c.kd * ((e - c.prev_error) / dt))
          (-c.output_limit) c.output_limit
      else 0 := by
  unfold PIDController.calculate
  rcases le_or_lt dt 0 with h | h
  · rw [if_pos h, if_neg (not_lt.mpr h)]
  · rw [if_neg (not_le.mpr h), if_pos h]

theorem clampMagnitude_spec (v : Vec3) (M : ℝ) (hM : 1e-8 ≤ M) :
    (clampMagnitude v M).mag ≤ M ∧ ∃ k, 0 ≤ k ∧ clampMagnitude v M = v.smul k := by
  unfold clampMagnitude
  split_ifs with h
  · rcases h with h | h
    · exact ⟨h, 1, zero_le_one, (Vec3.smul_one v).symm⟩
    · exact ⟨by linarith, 1, zero_le_one, (Vec3.smul_one v).symm⟩
  · push_neg at h
    have hm : 0 < v.mag := lt_of_lt_of_le (by norm_num) h.2
    have hM0 : 0 ≤ M := le_trans (by norm_num) hM
    have hk : 0 ≤ M / v.mag := div_nonneg hM0 hm.le
    have hmag : (v.smul (M / v.mag)).mag = M := by
      rw [Vec3.mag_smul, abs_of_nonneg hk, div_mul_cancel₀ _ hm.ne']
    exact ⟨le_of_eq hmag, M / v.mag, hk, rfl⟩

theorem ccf_force_shape (pos vel : Vec3) (st : ControlState) (pids : ControlPIDs)
    (cfg : ControlConfig) (dt : ℝ) :
    (computeControlForce pos vel st pids cfg dt).force = ⟨0, 0, 0⟩ ∨
      ∃ w, (computeControlForce pos vel st pids cfg dt).force
        = clampMagnitude w cfg.maxForce := by
  simp only [computeControlForce, apply_ite CCFOut.force]
  by_cases h1 : st.phase = Phase.GroundWait ∧ st.timeInPhase + dt < cfg.groundWait
  · rw [if_pos h1]; left; rfl
  · rw [if_neg h1]
    right
    exact ⟨_, (apply_ite (fun u => clampMagnitude u cfg.maxForce) _ _ _).symm⟩


/-- C4 (amended): provided `maxForce` is at least the `1e-8` epsilon used
by `clampMagnitude`, `clampMagnitude` caps the magnitude at `maxForce`
while returning a nonnegative scalar multiple of its input (direction
preserved, never component-wise), and every force returned by
`computeControlForce` has magnitude at most `cfg.maxForce`. -/
theorem ccf_force_bounded (pos vel : Vec3) (st : ControlState) (pids : ControlPIDs)
    (cfg : ControlConfig) (dt : ℝ) (v : Vec3) (M : ℝ)
    (hM : 1e-8 ≤ M) (hcfg : 1e-8 ≤ cfg.maxForce) :
    ((clampMagnitude v M).mag ≤ M ∧ ∃ k, 0 ≤ k ∧ clampMagnitude v M = v.smul k) ∧
      (computeControlForce pos vel st pids cfg dt).force.mag ≤ cfg.maxForce := by
  refine ⟨clampMagnitude_spec v M hM, ?_⟩
  rcases ccf_force_shape pos vel st pids cfg dt with h | ⟨w, h⟩
  · rw [h, Vec3.mag_zzc, abs_zero]; linarith
  · rw [h]; exact (clampMagnitude_spec w _ hcfg).1


/-- Counterexample to C4 as stated: with `maxForce = 1e-9` (below the
`1e-8` epsilon) a reachable call returns an unclamped force of magnitude
`2e-9 > maxForce`. -/
theorem ccf_force_exceeds_counterexample :
    (⟨⟨0, 0, 100⟩, 10, 0, 1e-9, 2, 10⟩ : ControlConfig).maxForce <
      (computeControlForce ⟨0, 0, 0⟩ ⟨0, 0, 0⟩ initialControlState
        ⟨⟨2e-11, 0, 0, 0, 0, 100, 100⟩, pidInit 0.8 0 10 100 10⟩
        ⟨⟨0, 0, 100⟩, 10, 0, 1e-9, 2, 10⟩ 1).force.mag := by
  simp only [computeControlForce, apply_ite CCFOut.force, calculate_fst,
    initialControlState, reduceCtorEq, if_true, if_false, eq_self_iff_true]
  norm_num [distance_zaxis, Vec3.sub, Vec3.smul, Vec3.normalized, Vec3.divs,
    Vec3.mag_zzc, clampMagnitude, cppClamp, abs_lt, abs_of_nonneg]


/-- Counterexample to C8 as stated: an agent in GroundWait with
`timeInPhase = 4.99 < groundWait`, positioned within the arrival
tolerance, does not end the elapsing tick in ClimbToCenter — it ends in
OnSphere. -/
theorem ccf_groundWait_skip_counterexample :
    (⟨Phase.GroundWait, 4.99, false, ⟨1, 0, 0⟩⟩ : ControlState).phase = Phase.GroundWait ∧
      (4.99 : ℝ) < defaultConfig.groundWait ∧
      defaultConfig.groundWait ≤ 4.99 + 0.01 ∧
      (computeControlForce ⟨0, 0, 49⟩ ⟨0, 0, 0⟩ ⟨Phase.GroundWait, 4.99, false, ⟨1, 0, 0⟩⟩
          ⟨pidInit 5 1 0.5 100 20, pidInit 0.8 0 10 100 10⟩ defaultConfig 0.01).state.phase
        ≠ Phase.ClimbToCenter ∧
      (computeControlForce ⟨0, 0, 49⟩ ⟨0, 0, 0⟩ ⟨Phase.GroundWait, 4.99, false, ⟨1, 0, 0⟩⟩
          ⟨pidInit 5 1 0.5 100 20, pidInit 0.8 0 10 100 10⟩ defaultConfig 0.01).state.phase
        = Phase.OnSphere := by
  have hOS : (computeControlForce ⟨0, 0, 49⟩ ⟨0, 0, 0⟩
      ⟨Phase.GroundWait, 4.99, false, ⟨1, 0, 0⟩⟩
      ⟨pidInit 5 1 0.5 100 20, pidInit 0.8 0 10 100 10⟩ defaultConfig 0.01).state.phase
      = Phase.OnSphere := by
    simp only [computeControlForce, apply_ite CCFOut.state, apply_ite ControlState.phase]
    norm_num [defaultConfig, distance_zaxis, abs_lt]
  refine ⟨rfl, by norm_num [defaultConfig], by norm_num [defaultConfig], ?_, hOS⟩
  rw [hOS]
  simp

/-- Witness for C8 on a concrete waiting agent (`timeInPhase + dt` still
below `groundWait`): the call returns the zero vector and only advances the
timer. -/
theorem ccf_groundWait_behavior_witness :
    computeControlForce ⟨3, 4, 0⟩ ⟨0, 0, 0⟩ ⟨Phase.GroundWait, 1, false, ⟨1, 0, 0⟩⟩
        ⟨pidInit 5 1 0.5 100 20, pidInit 0.8 0 10 100 10⟩ defaultConfig 0.5
      = ⟨⟨0, 0, 0⟩, ⟨Phase.GroundWait, 1 + 0.5, false, ⟨1, 0, 0⟩⟩,
         ⟨pidInit 5 1 0.5 100 20, pidInit 0.8 0 10 100 10⟩⟩ :=
  (ccf_groundWait_behavior ⟨3, 4, 0⟩ ⟨0, 0, 0⟩ ⟨Phase.GroundWait, 1, false, ⟨1, 0, 0⟩⟩
    ⟨pidInit 5 1 0.5 100 20, pidInit 0.8 0 10 100 10⟩ defaultConfig 0.5 rfl).1
    (by norm_num [defaultConfig])

/-- Witness for C3's theorem at the skip input. -/
theorem ccf_phase_monotone_witness :
    phaseIdx initialControlState.phase
        ≤ phaseIdx ((computeControlForce ⟨0, 0, 50⟩ ⟨0, 0, 0⟩ initialControlState
          ⟨pidInit 5 1 0.5 100 20, pidInit 0.8 0 10 100 10⟩ defaultConfig 6).state.phase) ∧
      (initialControlState.phase = Phase.GroundWait →
        (computeControlForce ⟨0, 0, 50⟩ ⟨0, 0, 0⟩ initialControlState
          ⟨pidInit 5 1 0.5 100 20, pidInit 0.8 0 10 100 10⟩ defaultConfig 6).state.phase
          = Phase.OnSphere →
        distance ⟨0, 0, 50⟩ defaultConfig.center < 2) :=
  ccf_phase_monotone ⟨0, 0, 50⟩ ⟨0, 0, 0⟩ initialControlState
    ⟨pidInit 5 1 0.5 100 20, pidInit 0.8 0 10 100 10⟩ defaultConfig 6

/-- Witness for C4 on a concrete vector and the default configuration. -/
theorem ccf_force_bounded_witness :
    (1e-8 : ℝ) ≤ 2 ∧ (1e-8 : ℝ) ≤ defaultConfig.maxForce ∧
      (((clampMagnitude ⟨3, 4, 0⟩ 2).mag ≤ 2 ∧
        ∃ k, 0 ≤ k ∧ clampMagnitude ⟨3, 4, 0⟩ 2 = Vec3.smul ⟨3, 4, 0⟩ k) ∧
      (computeControlForce ⟨0, 0, 0⟩ ⟨0, 0, 0⟩ initialControlState
        ⟨pidInit 5 1 0.5 100 20, pidInit 0.8 0 10 100 10⟩ defaultConfig 0.01).force.mag
        ≤ defaultConfig.maxForce) :=
  ⟨by norm_num, by norm_num [defaultConfig],
    ccf_force_bounded ⟨0, 0, 0⟩ ⟨0, 0, 0⟩ initialControlState
      ⟨pidInit 5 1 0.5 100 20, pidInit 0.8 0 10 100 10⟩ defaultConfig 0.01 ⟨3, 4, 0⟩ 2
      (by norm_num) (by norm_num [defaultConfig])⟩

/-- Witness for C1 at distance exactly 1.9 from the center. -/
theorem ccf_arrival_witness :
    distance ⟨0, 0, 48.1⟩ defaultConfig.center < 2 ∧
      (computeControlForce ⟨0, 0, 48.1⟩ ⟨0, 0, 0⟩
          ⟨Phase.ClimbToCenter, 7, false, ⟨1, 0, 0⟩⟩
          ⟨pidInit 5 1 0.5 100 20, pidInit 0.8 0 10 100 10⟩ defaultConfig 0.01).state.phase
        = Phase.OnSphere ∧
      (computeControlForce ⟨0, 0, 48.1⟩ ⟨0, 0, 0⟩
          ⟨Phase.ClimbToCenter, 7, false, ⟨1, 0, 0⟩⟩
          ⟨pidInit 5 1 0.5 100 20, pidInit 0.8 0 10 100 10⟩ defaultConfig 0.01).state.timeInPhase
        = 0 ∧
      (computeControlForce ⟨0, 0, 48.1⟩ ⟨0, 0, 0⟩
          ⟨Phase.ClimbToCenter, 7, false, ⟨1, 0, 0⟩⟩
          ⟨pidInit 5 1 0.5 100 20, pidInit 0.8 0 10 100 10⟩ defaultConfig 0.01).state.visitedCenter
        = true := by
  have hn : distance ⟨0, 0, 48.1⟩ defaultConfig.center < 2 := by
    norm_num [defaultConfig, distance_zaxis, abs_lt]
  have h := ccf_arrival ⟨0, 0, 48.1⟩ ⟨0, 0, 0⟩ ⟨Phase.ClimbToCenter, 7, false, ⟨1, 0, 0⟩⟩
    ⟨pidInit 5 1 0.5 100 20, pidInit 0.8 0 10 100 10⟩ defaultConfig 0.01 rfl hn
  exact ⟨hn, h.1, h.2.1, h.2.2.1⟩

/-! ## Exactness of the kernel-reducible rational arithmetic -/

theorem gcdF_eq (fuel m n : ℕ) (h : m < fuel) : gcdF fuel m n = Nat.gcd m n := by
  induction fuel generalizing m n with
  | zero => omega
  | succ fuel ih =>
    unfold gcdF
    split_ifs with hm
    · rw [hm, Nat.gcd_zero_left]
    · have hmpos : 0 < m := Nat.pos_of_ne_zero hm
      have hlt : n % m < fuel := lt_of_lt_of_le (Nat.mod_lt n hmpos) (by omega)
      rw [ih (n % m) m hlt]
      exact (Nat.gcd_rec m n).symm

theorem myGcd_eq (m n : ℕ) : myGcd m n = Nat.gcd m n :=
  gcdF_eq (m + 1) m n (Nat.lt_succ_self m)

theorem Q.den_pos (q : Q) : 0 < q.den := Nat.succ_pos q.dm1

theorem Q.den_cast_ne_zero (q : Q) : (q.den : ℝ) ≠ 0 :=
  Nat.cast_ne_zero.mpr q.den_pos.ne'

theorem Q.toR_mk (n : ℤ) (d : ℕ) : (Q.mk n d).toR = (n : ℝ) / ((d : ℝ) + 1) := by
  unfold Q.toR Q.den
  push_cast
  rfl

theorem Q.toR_ofInt (n : ℤ) : (Q.ofInt n).toR = (n : ℝ) := by
  rw [Q.ofInt, Q.toR_mk]
  norm_num

theorem Q.toR_norm (n : ℤ) (dm1 : ℕ) :
    (Q.norm n dm1).toR = (n : ℝ) / ((dm1 : ℝ) + 1) := by
  unfold Q.norm
  simp only [myGcd_eq]
  set gg := Nat.gcd n.natAbs (dm1 + 1) with hgdef
  have hgpos : 0 < gg := Nat.gcd_pos_of_pos_right _ (Nat.succ_pos dm1)
  obtain ⟨k, hk⟩ : ((gg : ℤ)) ∣ n := Int.natCast_dvd.mpr (Nat.gcd_dvd_left _ _)
  obtain ⟨j, hj⟩ : gg ∣ dm1 + 1 := Nat.gcd_dvd_right _ _
  have hjpos : 0 < j := by
    rcases Nat.eq_zero_or_pos j with rfl | h
    · omega
    · exact h
  have hnum : n / (gg : ℤ) = k := by
    rw [hk]
    exact Int.mul_ediv_cancel_left k (Int.natCast_ne_zero.mpr hgpos.ne')
  have hden : (dm1 + 1) / gg = j := by
    rw [hj]
    exact Nat.mul_div_cancel_left j hgpos
  rw [Q.toR_mk, hnum, hden]
  have h1 : ((j - 1 : ℕ) : ℝ) + 1 = (j : ℝ) := by
    push_cast [Nat.cast_sub hjpos]
    ring
  rw [h1]
  have h2 : ((dm1 : ℝ) + 1) = (gg : ℝ) * (j : ℝ) := by
    exact_mod_cast congrArg (fun x : ℕ => (x : ℝ)) hj
  have h3 : ((n : ℝ)) = (gg : ℝ) * (k : ℝ) := by
    exact_mod_cast congrArg (fun x : ℤ => (x : ℝ)) hk
  rw [h2, h3, mul_div_mul_left _ _ (by exact_mod_cast hgpos.ne' : (gg : ℝ) ≠ 0)]

theorem Q.den_prod_cast (a b : Q) : ((a.den * b.den - 1 : ℕ) : ℝ) + 1 = (a.den : ℝ) * b.den := by
  have h1 : 1 ≤ a.den * b.den := Nat.one_le_iff_ne_zero.mpr (Nat.mul_ne_zero a.den_pos.ne' b.den_pos.ne')
  push_cast [Nat.cast_sub h1]
  ring

theorem Q.toR_add (a b : Q) : (a.add b).toR = a.toR + b.toR := by
  unfold Q.add
  rw [Q.toR_norm]
  rw [show ((a.den * b.den - 1 : ℕ) : ℝ) + 1 = (a.den : ℝ) * b.den from Q.den_prod_cast a b]
  unfold Q.toR
  have ha := a.den_cast_ne_zero
  have hb := b.den_cast_ne_zero
  push_cast
  field_simp
  try ring

theorem Q.toR_neg (a : Q) : a.neg.toR = -a.toR := by
  unfold Q.neg Q.toR Q.den
  push_cast
  ring

theorem Q.toR_sub (a b : Q) : (a.sub b).toR = a.toR - b.toR := by
  unfold Q.sub
  rw [Q.toR_add, Q.toR_neg]
  ring

theorem Q.toR_mul (a b : Q) : (a.mul b).toR = a.toR * b.toR := by
  unfold Q.mul
  rw [Q.toR_norm]
  rw [show ((a.den * b.den - 1 : ℕ) : ℝ) + 1 = (a.den : ℝ) * b.den from Q.den_prod_cast a b]
  unfold Q.toR
  have ha := a.den_cast_ne_zero
  have hb := b.den_cast_ne_zero
  push_cast
  field_simp

theorem Q.toR_abs (a : Q) : a.abs.toR = |a.toR| := by
  unfold Q.abs Q.toR Q.den
  rw [abs_div]
  push_cast
  rw [abs_of_nonneg (by positivity : (0 : ℝ) ≤ (a.dm1 : ℝ) + 1)]

theorem Q.toR_div (a b : Q) : (a.div b).toR = a.toR / b.toR := by
  unfold Q.div
  split_ifs with hb
  · have hbz : b.toR = 0 := by
      unfold Q.toR
      rw [hb]
      simp
    rw [hbz, div_zero, Q.toR_mk]
    simp
  · rw [Q.toR_norm]
    have h1 : 1 ≤ a.den * b.num.natAbs :=
      Nat.one_le_iff_ne_zero.mpr
        (Nat.mul_ne_zero a.den_pos.ne' (Int.natAbs_ne_zero.mpr hb))
    rw [show ((a.den * b.num.natAbs - 1 : ℕ) : ℝ) + 1 = (a.den : ℝ) * |(b.num : ℝ)| by
      push_cast [Nat.cast_sub h1, Int.cast_natAbs]
      ring]
    unfold Q.toR
    rcases lt_trichotomy b.num 0 with hn | hn | hn
    · rw [Int.sign_eq_neg_one_of_neg hn]
      rw [abs_of_neg (by exact_mod_cast hn : (b.num : ℝ) < 0)]
      have hbne : (b.num : ℝ) ≠ 0 := by exact_mod_cast hb
      push_cast
      field_simp
      try ring
    · exact absurd hn hb
    · rw [Int.sign_eq_one_of_pos hn]
      rw [abs_of_pos (by exact_mod_cast hn : (0 : ℝ) < (b.num : ℝ))]
      have hbne : (b.num : ℝ) ≠ 0 := by exact_mod_cast hb
      push_cast
      field_simp
      try ring

theorem Q.lt_iff (a b : Q) : a.lt b ↔ a.toR < b.toR := by
  unfold Q.lt Q.toR
  rw [div_lt_div_iff (by exact_mod_cast a.den_pos) (by exact_mod_cast b.den_pos)]
  exact_mod_cast Iff.rfl

theorem Q.le_iff (a b : Q) : a.le b ↔ a.toR ≤ b.toR := by
  unfold Q.le Q.toR
  rw [div_le_div_iff (by exact_mod_cast a.den_pos) (by exact_mod_cast b.den_pos)]
  exact_mod_cast Iff.rfl

theorem Q.toR_clamp (v lo hi : Q) :
    (Q.clamp v lo hi).toR = cppClamp v.toR lo.toR hi.toR := by
  simp only [Q.clamp, cppClamp, apply_ite Q.toR, Q.lt_iff]

theorem Vec3.add_zzc (a b : ℝ) : Vec3.add ⟨0, 0, a⟩ ⟨0, 0, b⟩ = ⟨0, 0, a + b⟩ := by
  unfold Vec3.add
  norm_num

theorem Vec3.sub_zzc (a b : ℝ) : Vec3.sub ⟨0, 0, a⟩ ⟨0, 0, b⟩ = ⟨0, 0, a - b⟩ := by
  unfold Vec3.sub
  norm_num

theorem Vec3.smul_zzc (a k : ℝ) : Vec3.smul ⟨0, 0, a⟩ k = ⟨0, 0, a * k⟩ := by
  unfold Vec3.smul
  norm_num

theorem Vec3.divs_zzc (a k : ℝ) : Vec3.divs ⟨0, 0, a⟩ k = ⟨0, 0, a / k⟩ := by
  unfold Vec3.divs
  norm_num

theorem Vec3.normalized_zzc (c : ℝ) :
    Vec3.normalized ⟨0, 0, c⟩ = ⟨0, 0, if |c| < 1e-8 then 0 else c / |c|⟩ := by
  unfold Vec3.normalized
  rw [Vec3.mag_zzc, Vec3.divs_zzc]
  split_ifs with h
  · rfl
  · rfl

theorem clampMagnitude_zzc (c M : ℝ) :
    clampMagnitude ⟨0, 0, c⟩ M
      = ⟨0, 0, if |c| ≤ M ∨ |c| < 1e-8 then c else c * (M / |c|)⟩ := by
  unfold clampMagnitude
  rw [Vec3.mag_zzc, Vec3.smul_zzc]
  split_ifs with h
  · rfl
  · rfl

theorem dtQ_toR : dtQ.toR = 0.01 := by
  rw [dtQ, Q.toR_mk]
  norm_num

theorem epsQ_toR : epsQ.toR = 1e-8 := by
  rw [epsQ, Q.toR_mk]
  norm_num

theorem halfQ_toR : (⟨1, 1⟩ : Q).toR = 0.5 := by
  rw [Q.toR_mk]
  norm_num

theorem microQ_toR : (⟨1, 999999⟩ : Q).toR = 1e-6 := by
  rw [Q.toR_mk]
  norm_num

theorem ite_zzc (c : Prop) [Decidable c] (a b : ℝ) :
    (if c then (⟨0, 0, a⟩ : Vec3) else ⟨0, 0, b⟩) = ⟨0, 0, if c then a else b⟩ :=
  (apply_ite (Vec3.mk 0 0) c a b).symm

theorem ccf_climb_z_eq (zR vzR tR : ℝ) (vis : Bool) (tang : Vec3) (pids : ControlPIDs)
    (dt : ℝ) (hfar : ¬ distance ⟨0, 0, zR⟩ defaultConfig.center < 2) :
    computeControlForce ⟨0, 0, zR⟩ ⟨0, 0, vzR⟩ ⟨Phase.ClimbToCenter, tR, vis, tang⟩ pids
        defaultConfig dt
      = ⟨⟨0, 0, climbFz zR vzR pids dt⟩, ⟨Phase.ClimbToCenter, tR + dt, vis, tang⟩,
         ⟨(pids.radialPID.calculate |50 - zR| dt).2, pids.speedPID⟩⟩ := by
  simp only [computeControlForce, reduceCtorEq, if_true, if_false, eq_self_iff_true,
    false_and, and_true, true_and]
  simp only [if_neg hfar]
  simp only [defaultConfig]
  simp only [Vec3.sub_zzc, Vec3.mag_zzc, Vec3.normalized_zzc, Vec3.smul_zzc, ite_zzc,
    clampMagnitude_zzc]
  simp only [climbFz]
  simp only [if_true]

theorem ccf_gwgo_z_eq (zR vzR tR : ℝ) (vis : Bool) (tang : Vec3) (pids : ControlPIDs)
    (dt : ℝ) (hnl : ¬ (tR + dt < defaultConfig.groundWait))
    (hfar : ¬ distance ⟨0, 0, zR⟩ defaultConfig.center < 2) :
    computeControlForce ⟨0, 0, zR⟩ ⟨0, 0, vzR⟩ ⟨Phase.GroundWait, tR, vis, tang⟩ pids
        defaultConfig dt
      = ⟨⟨0, 0, climbFz zR vzR pids dt⟩, ⟨Phase.ClimbToCenter, 0, vis, tang⟩,
         ⟨(pids.radialPID.calculate |50 - zR| dt).2, pids.speedPID⟩⟩ := by
  simp only [computeControlForce, reduceCtorEq, if_true, if_false, eq_self_iff_true,
    false_and, and_true, true_and]
  simp only [if_neg hnl]
  simp only [if_neg hfar]
  simp only [defaultConfig]
  simp only [Vec3.sub_zzc, Vec3.mag_zzc, Vec3.normalized_zzc, Vec3.smul_zzc, ite_zzc,
    clampMagnitude_zzc]
  simp only [climbFz]
  simp only [if_true]

theorem ccf_stay_eq (pos vel : Vec3) (st : ControlState) (pids : ControlPIDs)
    (cfg : ControlConfig) (dt : ℝ) (hph : st.phase = Phase.GroundWait)
    (h1 : st.timeInPhase + dt < cfg.groundWait) :
    computeControlForce pos vel st pids cfg dt
      = ⟨⟨0, 0, 0⟩, { st with timeInPhase := st.timeInPhase + dt }, pids⟩ := by
  simp only [computeControlForce]
  split_ifs with h <;> first | rfl | exact absurd ⟨hph, h1⟩ h

theorem uavStep_embed (s : ZState) (ph : Phase) (tQ intgQ prevEQ fzQ : Q)
    (hccf : computeControlForce ⟨0, 0, s.z.toR⟩ ⟨0, 0, s.vz.toR⟩
        ⟨s.phase, s.t.toR, false, ⟨1, 0, 0⟩⟩ (pidsEmbed s.intg s.prevE) defaultConfig 0.01
        = ⟨⟨0, 0, fzQ.toR⟩, ⟨ph, tQ.toR, false, ⟨1, 0, 0⟩⟩, pidsEmbed intgQ prevEQ⟩) :
    uavStep (embedZ s) = embedZ (zPhysics s ph tQ intgQ prevEQ fzQ) := by
  simp only [uavStep, embedZ]
  rw [hccf]
  simp only [zPhysics, g, mass]
  simp only [Vec3.divs_zzc, Vec3.add_zzc, Vec3.smul_zzc, ite_zzc, Vec3.mag_zzc]
  simp only [apply_ite Q.toR, Q.toR_add, Q.toR_mul, Q.toR_div, Q.toR_abs, Q.toR_ofInt,
    Q.lt_iff, dtQ_toR, microQ_toR, Int.cast_zero, Int.cast_one, Int.cast_neg,
    Int.cast_ofNat]

theorem zClimbR_toR (s : ZState) : (zClimbR s).toR = |50 - s.z.toR| := by
  simp only [zClimbR, Q.toR_abs, Q.toR_sub, Q.toR_ofInt, Int.cast_ofNat]

theorem zClimbIntegral_toR (s : ZState) :
    (zClimbIntegral s).toR
      = cppClamp (s.intg.toR + |50 - s.z.toR| * 0.01) (-100) 100 := by
  simp only [zClimbIntegral, Q.toR_clamp, Q.toR_add, Q.toR_mul, Q.toR_ofInt, zClimbR_toR,
    dtQ_toR, Int.cast_neg, Int.cast_ofNat]

theorem zClimbFz_toR (s : ZState) :
    (zClimbFz s).toR = climbFz s.z.toR s.vz.toR (pidsEmbed s.intg s.prevE) 0.01 := by
  simp only [zClimbFz, zClimbRdz, zClimbOut, zClimbIntegral, zClimbR, climbFz, pidsEmbed,
    calculate_fst, apply_ite Q.toR, Q.toR_add, Q.toR_sub, Q.toR_mul, Q.toR_div, Q.toR_abs,
    Q.toR_ofInt, Q.toR_clamp, Q.lt_iff, Q.le_iff, dtQ_toR, epsQ_toR, halfQ_toR,
    Int.cast_zero, Int.cast_one, Int.cast_neg, Int.cast_ofNat]
  norm_num

theorem zstep_sound (s zs' : ZState) (h : zstep s = some zs') :
    uavStep (embedZ s) = embedZ zs' := by
  cases hph : s.phase with
  | OnSphere =>
    simp only [zstep, hph, if_true, eq_self_iff_true] at h
    cases h
  | GroundWait =>
    simp only [zstep, hph, reduceCtorEq, if_false, eq_self_iff_true, true_and, if_true] at h
    by_cases hstay : (s.t.add dtQ).lt (Q.ofInt 5)
    · rw [if_pos hstay] at h
      injection h with h'
      subst h'
      apply uavStep_embed
      have hR : s.t.toR + 0.01 < 5 := by
        have h2 := (Q.lt_iff _ _).mp hstay
        rwa [Q.toR_add, dtQ_toR, Q.toR_ofInt, Int.cast_ofNat] at h2
      rw [ccf_stay_eq _ _ _ _ _ _ hph hR]
      simp only [CCFOut.mk.injEq, ControlState.mk.injEq, Vec3.mk.injEq, Q.toR_add,
        Q.toR_ofInt, dtQ_toR, Int.cast_zero, hph]
      try norm_num
    · rw [if_neg hstay] at h
      by_cases harr : ((s.z.sub (Q.ofInt 50)).abs).lt (Q.ofInt 2)
      · rw [if_pos harr] at h; cases h
      · rw [if_neg harr] at h
        injection h with h'
        subst h'
        apply uavStep_embed
        have hnlR : ¬ (s.t.toR + 0.01 < defaultConfig.groundWait) := by
          intro hcon
          apply hstay
          rw [Q.lt_iff, Q.toR_add, dtQ_toR, Q.toR_ofInt, Int.cast_ofNat]
          exact hcon
        have hfarR : ¬ distance ⟨0, 0, s.z.toR⟩ defaultConfig.center < 2 := by
          intro hcon
          apply harr
          rw [show defaultConfig.center = (⟨0, 0, 50⟩ : Vec3) from rfl, distance_zaxis] at hcon
          rw [Q.lt_iff, Q.toR_abs, Q.toR_sub, Q.toR_ofInt, Q.toR_ofInt]
          push_cast
          exact hcon
        rw [hph]
        rw [ccf_gwgo_z_eq _ _ _ _ _ _ _ hnlR hfarR]
        simp only [CCFOut.mk.injEq, ControlState.mk.injEq, Vec3.mk.injEq,
          ControlPIDs.mk.injEq, PIDController.mk.injEq, pidsEmbed, calculate_snd,
          zClimbFz_toR, zClimbIntegral_toR, zClimbR_toR, Q.toR_ofInt, Int.cast_zero]
        norm_num [pidsEmbed]
  | ClimbToCenter =>
    simp only [zstep, hph, reduceCtorEq, if_false, eq_self_iff_true, false_and,
      if_true] at h
    by_cases harr : ((s.z.sub (Q.ofInt 50)).abs).lt (Q.ofInt 2)
    · rw [if_pos harr] at h; cases h
    · rw [if_neg harr] at h
      injection h with h'
      subst h'
      apply uavStep_embed
      have hfarR : ¬ distance ⟨0, 0, s.z.toR⟩ defaultConfig.center < 2 := by
        intro hcon
        apply harr
        rw [show defaultConfig.center = (⟨0, 0, 50⟩ : Vec3) from rfl, distance_zaxis] at hcon
        rw [Q.lt_iff, Q.toR_abs, Q.toR_sub, Q.toR_ofInt, Q.toR_ofInt]
        push_cast
        exact hcon
      rw [hph]
      rw [ccf_climb_z_eq _ _ _ _ _ _ _ hfarR]
      simp only [CCFOut.mk.injEq, ControlState.mk.injEq, Vec3.mk.injEq,
        ControlPIDs.mk.injEq, PIDController.mk.injEq, pidsEmbed, calculate_snd,
        zClimbFz_toR, zClimbIntegral_toR, zClimbR_toR, Q.toR_ofInt, Q.toR_add, dtQ_toR,
        Int.cast_zero]
      norm_num [pidsEmbed]

theorem iterateZ_sound (n : ℕ) (s : ZState) : ∀ zs', iterateZ n s = some zs' →
    uavStep^[n] (embedZ s) = embedZ zs' := by
  induction n with
  | zero =>
    intro zs' h
    injection h with h'
    subst h'
    rfl
  | succ n ih =>
    intro zs' h
    simp only [iterateZ] at h
    cases hmid : iterateZ n s with
    | none => rw [hmid] at h; cases h
    | some mid =>
      rw [hmid] at h
      simp only [Option.some_bind] at h
      rw [Function.iterate_succ_apply', ih mid hmid]
      exact zstep_sound mid zs' h

theorem embedZ_z0 : embedZ z0 = scenarioAgent := by
  unfold embedZ z0 scenarioAgent uavInit initialControlState pidsEmbed defaultConfig pidInit
  simp only [UAVState.mk.injEq, Vec3.mk.injEq, ControlState.mk.injEq, ControlPIDs.mk.injEq,
    PIDController.mk.injEq, Q.toR_ofInt, Int.cast_zero]
  try norm_num

theorem iterateZ_add (m n : ℕ) (s : ZState) :
    iterateZ (m + n) s = (iterateZ m s).bind (iterateZ n) := by
  induction n with
  | zero =>
    show iterateZ m s = _
    cases iterateZ m s <;> rfl
  | succ n ih =>
    show (iterateZ (m + n) s).bind zstep = _
    rw [ih]
    cases iterateZ m s with
    | none => rfl
    | some mid =>
      simp only [Option.some_bind]
      rfl

set_option maxRecDepth 400000 in
theorem zchain_step : ∀ k, k < 11 → iterateZ 50 (zChainState k) = some (zChainState (k + 1)) := by
  decide

theorem iterateZ_550 : iterateZ 550 z0 = some (zChainState 11) := by
  have hall : ∀ k, k ≤ 11 → iterateZ (50 * k) z0 = some (zChainState k) := by
    intro k
    induction k with
    | zero => intro _; rfl
    | succ k ih =>
      intro hk
      rw [show 50 * (k + 1) = 50 * k + 50 from by ring, iterateZ_add, ih (by omega),
        Option.some_bind]
      exact zchain_step k (by omega)
  exact hall 11 (le_refl 11)

/-! ## C2: the concrete 5.5-second scenario -/

/-- C2 (amended): the agent constructed at the origin with the default
configuration (`groundWait = 5`), after 550 simulation ticks at
`dt = 0.01`, is in phase ClimbToCenter with `timeInPhase ≤ 0.5` (the value
is exactly 0.5 under exact arithmetic: the GroundWait phase ends precisely
at tick 500, and 50 ClimbToCenter ticks then accumulate exactly 0.5). -/
theorem scenario_after_550_ticks :
    (uavStep^[550] scenarioAgent).ctrlState.phase = Phase.ClimbToCenter ∧
      (uavStep^[550] scenarioAgent).ctrlState.timeInPhase ≤ 0.5 := by
  have h := iterateZ_sound 550 z0 (zChainState 11) iterateZ_550
  rw [embedZ_z0] at h
  rw [h]
  constructor
  · rfl
  · show ((⟨1, 1⟩ : Q)).toR ≤ 0.5
    rw [halfQ_toR]

/-- Counterexample to C2 as stated: after the 550 ticks `timeInPhase`
equals exactly 0.5, so the claimed strict bound `timeInPhase < 0.5` fails. -/
theorem scenario_after_550_ticks_counterexample :
    (uavStep^[550] scenarioAgent).ctrlState.timeInPhase = 0.5 ∧
      ¬ ((uavStep^[550] scenarioAgent).ctrlState.phase = Phase.ClimbToCenter ∧
        (uavStep^[550] scenarioAgent).ctrlState.timeInPhase < 0.5) := by
  have h := iterateZ_sound 550 z0 (zChainState 11) iterateZ_550
  rw [embedZ_z0] at h
  have ht : (uavStep^[550] scenarioAgent).ctrlState.timeInPhase = 0.5 := by
    rw [h]
    show ((⟨1, 1⟩ : Q)).toR = 0.5
    rw [halfQ_toR]
  refine ⟨ht, fun hcon => ?_⟩
  rw [ht] at hcon
  exact lt_irrefl _ hcon.2
